import Mathlib

/-!
# Verification of the MTP human-annotation survey tool

Shallow embedding, in Lean 4, of the core logic of the MTP repository:

* `app.py` — the MongoDB-backed Streamlit survey (option normalization
  `clean_mongo_options`, the instructions gate, `handle_answer_submission`,
  option derivation for each rendered question, the completion screen);
* `response_collector.py` — the SQLite-backed variant (`clean_options`,
  `get_random_questions`, `save_response`, `handle_answer_submission`,
  `start_new_session`);
* `label_studio/make_batches.py` — the batch-partition script.

Pure Python functions become Lean functions.  Randomness (`random.choice`,
`random.sample`, `random.shuffle`) is modelled nondeterministically: the
random draw is an explicit argument (an index, a seed list, or an arbitrary
permutation of the output), and theorems quantify over all draws.  The
mutable Streamlit `session_state` becomes an explicit `SessionState` record
threaded through the handlers; database writes become emitted
`ResponseRec` values, and a write that can raise becomes an
`Except String` result.
-/

namespace MTP

/-! ### Python string primitives

Python's `str.strip`, `str.strip(chars)` and `str.split(',')`, modelled on
`List Char` and wrapped back into `String`. -/

/-- The characters Python's default `str.strip()` removes. -/
def pyIsSpace (c : Char) : Bool :=
  c == ' ' || c == '\t' || c == '\n' || c == '\r' || c == '\x0b' || c == '\x0c'

/-- Python `str.strip(chars)`: repeatedly remove leading and trailing
characters satisfying `p`. -/
def stripChars (p : Char → Bool) (l : List Char) : List Char :=
  ((l.dropWhile p).reverse.dropWhile p).reverse

/-- `pyStripChars p s` is Python `s.strip(chars)` where `p` tests membership
in `chars` (or whitespace for the default `strip()`). -/
def pyStripChars (p : Char → Bool) (s : String) : String :=
  String.mk (stripChars p s.toList)

/-- Python `s.split(',')` on the character list: split at every comma,
keeping empty fields; the empty string yields one empty field. -/
def splitCommaChars : List Char → List (List Char)
  | [] => [[]]
  | c :: cs =>
    if c == ',' then [] :: splitCommaChars cs
    else
      match splitCommaChars cs with
      | [] => [[c]]
      | p :: ps => (c :: p) :: ps

/-- Python `s.split(',')`. -/
def pySplitComma (s : String) : List String :=
  (splitCommaChars s.toList).map String.mk

/-- The brace/bracket delimiter set `'{}[]'` of `app.py`'s
`clean_mongo_options`. -/
def braceBracketChar (c : Char) : Bool :=
  c == '\x7b' || c == '\x7d' || c == '[' || c == ']'

/-- The brace delimiter set `'{}'` of `response_collector.py`'s
`clean_options`. -/
def braceChar (c : Char) : Bool :=
  c == '\x7b' || c == '\x7d'

/-- The quote set `"'\""` stripped from each element by
`clean_mongo_options`. -/
def quoteChar (c : Char) : Bool :=
  c == '\x27' || c == '\"'

/-- A dynamically typed value arriving from storage: a string, a native
list of label strings, or anything else (`None`, a float `NaN`, ...). -/
inductive PyVal where
  | str (s : String)
  | strList (l : List String)
  | otherVal
deriving DecidableEq

/-- Embeds `clean_mongo_options` from `app.py` (lines 59–69): on a string,
strip whitespace, strip `'{}[]'` from the ends, split on commas, and strip
whitespace then quotes from each field; on any non-string value return the
empty list. -/
def clean_mongo_options (option_str : PyVal) : List String :=
  match option_str with
  | .str s =>
    let clean_str := pyStripChars braceBracketChar (pyStripChars pyIsSpace s)
    (pySplitComma clean_str).map
      (fun t => pyStripChars quoteChar (pyStripChars pyIsSpace t))
  | _ => []

/-- Embeds `clean_options` from `response_collector.py` (lines 52–56): on a
string, strip whitespace, strip `'{}'` from the ends, split on commas, and
strip whitespace from each field; on any non-string value return the empty
list. -/
def clean_options (option_str : PyVal) : List String :=
  match option_str with
  | .str s =>
    let clean_str := pyStripChars braceChar (pyStripChars pyIsSpace s)
    (pySplitComma clean_str).map (fun t => pyStripChars pyIsSpace t)
  | _ => []

/-! ### The instructions gate (timer)

Both variants compute, on every refresh,
`time_remaining = max(0, TIMER_DURATION_SECONDS - int(elapsed_time))`,
`timer_expired = time_remaining == 0`, and render the Start Assessment
button with `disabled=not timer_expired`.  Elapsed wall-clock time is a
rational number of seconds; Python `int()` truncates toward zero. -/

def TIMER_DURATION_SECONDS : Int := 20

/-- Python `int()` applied to a float/rational: truncation toward zero. -/
def pyInt (q : ℚ) : Int :=
  if q < 0 then -(Int.floor (-q)) else Int.floor q

/-- `max(0, TIMER_DURATION_SECONDS - int(elapsed_time))`. -/
def time_remaining (elapsed_time : ℚ) : Int :=
  max 0 (TIMER_DURATION_SECONDS - pyInt elapsed_time)

/-- `timer_expired = time_remaining == 0`. -/
def timer_expired (elapsed_time : ℚ) : Bool :=
  time_remaining elapsed_time == 0

/-- The `disabled=not timer_expired` flag on the Start Assessment button. -/
def start_button_disabled (elapsed_time : ℚ) : Bool :=
  ! timer_expired elapsed_time

/-! ### Session state and the answer-submission handler -/

/-- One question tuple `(question_id, question_text, true_label,
others_options_str)` as held in `st.session_state.questions`. -/
structure Question where
  question_id : String
  question_text : String
  true_label : String
  others_options_str : String
deriving DecidableEq, Inhabited

/-- One row of the responses store:
`{user_name, question_id, response}` (the timestamp is not modelled). -/
structure ResponseRec where
  user_name : String
  question_id : String
  response : String
deriving DecidableEq

/-- The Streamlit `session_state` fields used by the flow. -/
structure SessionState where
  user_name : String
  questions : List Question
  current_idx : Nat
  responses : List (String × String)
  timer_start_time : Option ℚ
  assessment_started : Bool
deriving DecidableEq

def DEFAULT_USER_NAME : String := "Annotator_Guest"

/-- Python dict assignment `responses[qid] = value` on an association
list: overwrite the existing binding or append a new one. -/
def setResponse : List (String × String) → String → String → List (String × String)
  | [], k, v => [(k, v)]
  | (k', v') :: rest, k, v =>
    if k' = k then (k, v) :: rest else (k', v') :: setResponse rest k v

/-- The session-state setup block (`app.py` lines 141–152,
`response_collector.py` lines 143–157): fresh defaults with the freshly
sampled question list. -/
def initSessionState (qs : List Question) : SessionState :=
  { user_name := DEFAULT_USER_NAME
    questions := qs
    current_idx := 0
    responses := []
    timer_start_time := none
    assessment_started := false }

/-- `handle_answer_submission` (identical in both variants), with the
successful database write made explicit as the emitted `ResponseRec` list:
if `current_idx < len(questions)`, save one response for the question at
the cursor, record it in the local `responses` map and advance the cursor;
otherwise do nothing. -/
def handle_answer_submission (response_value : String) (s : SessionState) :
    SessionState × List ResponseRec :=
  if s.current_idx < s.questions.length then
    let qid := (s.questions.getD s.current_idx default).question_id
    ({ s with
        responses := setResponse s.responses qid response_value
        current_idx := s.current_idx + 1 },
      [⟨s.user_name, qid, response_value⟩])
  else (s, [])

/-- `save_response` in `app.py` (lines 115–130) wraps the insert in
`try/except` and only prints on failure: a failing write emits no record
and raises nothing. -/
def save_response_mongo (writeOutcome : Except String Unit)
    (user qid resp : String) : List ResponseRec :=
  match writeOutcome with
  | .error _ => []
  | .ok _ => [⟨user, qid, resp⟩]

/-- `handle_answer_submission` in `app.py`: the write outcome is absorbed
by `save_response`'s `try/except`, so the in-memory state always advances
when the cursor is in range. -/
def handle_answer_submission_mongo (writeOutcome : Except String Unit)
    (response_value : String) (s : SessionState) :
    SessionState × List ResponseRec :=
  if s.current_idx < s.questions.length then
    let qid := (s.questions.getD s.current_idx default).question_id
    ({ s with
        responses := setResponse s.responses qid response_value
        current_idx := s.current_idx + 1 },
      save_response_mongo writeOutcome s.user_name qid response_value)
  else (s, [])

/-- `handle_answer_submission` in `response_collector.py`, whose
`save_response` (lines 120–129) has no exception handling: a raising
write propagates out of the handler before the local map update and the
cursor increment execute, so the state is left unchanged and the
exception surfaces. -/
def handle_answer_submission_sqlite (writeOutcome : Except String Unit)
    (response_value : String) (s : SessionState) :
    Except String (SessionState × List ResponseRec) :=
  if s.current_idx < s.questions.length then
    let qid := (s.questions.getD s.current_idx default).question_id
    match writeOutcome with
    | .error e => .error e
    | .ok _ =>
      .ok ({ s with
              responses := setResponse s.responses qid response_value
              current_idx := s.current_idx + 1 },
            [⟨s.user_name, qid, response_value⟩])
  else .ok (s, [])

/-- `start_new_session` (`response_collector.py` lines 160–171): clear the
session state and rebuild the gating defaults with a freshly sampled
question list (the fresh sample is the explicit argument). -/
def start_new_session (freshQs : List Question) : SessionState :=
  { user_name := DEFAULT_USER_NAME
    questions := freshQs
    current_idx := 0
    responses := []
    timer_start_time := none
    assessment_started := false }

/-! ### Option derivation for a rendered question -/

def neutralSentinel : String := "Don\x27t know/Neutral"

def FALLBACK_LABEL : String := "Other Category"

/-- The `false_label` computation at render time (both variants): if the
parsed alternative list is non-empty, `random.choice` picks one of its
elements — modelled by an arbitrary index `choice` taken modulo the
length — otherwise the fixed fallback `"Other Category"` is used. -/
def false_label (other_options_list : List String) (choice : Nat) : String :=
  if h : 0 < other_options_list.length then
    other_options_list.get ⟨choice % other_options_list.length,
      Nat.mod_lt _ h⟩
  else FALLBACK_LABEL

/-- The pre-shuffle option list
`[true_label, false_label, "Don't know/Neutral"]`; `random.shuffle` then
produces an arbitrary permutation of it, which theorems quantify over. -/
def option_labels (true_label : String) (other_options_list : List String)
    (choice : Nat) : List String :=
  [true_label, false_label other_options_list choice, neutralSentinel]

/-- In `app.py`, `get_random_questions` stores
`str(clean_mongo_options(doc.get('others_options', '')))` in the question
tuple and the render step recovers it with `ast.literal_eval`.  Since
`ast.literal_eval` is an exact inverse of `str` on lists of strings, the
parsed alternative list at render time is the `clean_mongo_options` output
itself. -/
def appParsedAlternatives (stored : PyVal) : List String :=
  clean_mongo_options stored

/-! ### Sampling (`get_random_questions`, `response_collector.py` 97–118) -/

/-- Model of Python `random.sample(l, n)` for `n ≤ len(l)`: draw `n`
elements without replacement; the random draws are an explicit seed list,
each entry selecting (mod the remaining pool size) the next element. -/
def randomSample : List Question → Nat → List Nat → List Question
  | _, 0, _ => []
  | l, n + 1, seed =>
    if h : 0 < l.length then
      let i : Fin l.length := ⟨seed.headD 0 % l.length, Nat.mod_lt _ h⟩
      l.get i :: randomSample (l.eraseIdx i.val) n seed.tail
    else []

/-- `get_random_questions` from `response_collector.py`: fetch all
questions; if there are none return `[]`; if fewer than `n`, return them
all; otherwise `random.sample(all_questions, n)`. -/
def get_random_questions (all_questions : List Question) (n : Nat)
    (seed : List Nat) : List Question :=
  if all_questions.isEmpty then []
  else if all_questions.length < n then all_questions
  else randomSample all_questions n seed

/-! ### Completion screens and the session operations -/

/-- The interactive controls rendered on a completion (Done) screen. -/
inductive RenderedControl where
  | startNewSessionControl
deriving DecidableEq

/-- The completion screen of `app.py` (lines 263–274) renders text only:
the Start New Session button was removed ("to create a single, final
end-point"), so no control is offered. -/
def app_done_screen_controls : List RenderedControl := []

/-- The completion screen of `response_collector.py` (lines 326–346)
renders one button, `"Start New Session (Re-load)"`, wired to
`start_new_session`. -/
def rc_done_screen_controls : List RenderedControl :=
  [.startNewSessionControl]

/-- The state-mutating operations of the session flow. -/
inductive SessionOp where
  | submit (response_value : String)
  | startAssessment
  | reset (freshQs : List Question)

/-- One step of the session state machine. -/
def sessionStep (op : SessionOp) (s : SessionState) : SessionState :=
  match op with
  | .submit v => (handle_answer_submission v s).1
  | .startAssessment => { s with assessment_started := true }
  | .reset qs => start_new_session qs

/-- Run a sequence of session operations from a state. -/
def runSession (ops : List SessionOp) (s : SessionState) : SessionState :=
  ops.foldl (fun s op => sessionStep op s) s

/-! ### The batch-partition script (`label_studio/make_batches.py`) -/

/-- One parsed input row of `make_batches.py`. -/
structure BatchQuestion where
  question_id : Option String
  question_text : String
deriving DecidableEq, Inhabited

/-- One Label Studio task object
`{data: {question_text}, meta: {question_id}}`. -/
structure LSTask where
  data_question_text : String
  meta_question_id : Option String
deriving DecidableEq

def QUESTIONS_PER_BATCH : Nat := 20

/-- The slice starts `range(0, len, QUESTIONS_PER_BATCH)` of the batch
list comprehension. -/
def batchStarts (len : Nat) : List Nat :=
  (List.range ((len + (QUESTIONS_PER_BATCH - 1)) / QUESTIONS_PER_BATCH)).map
    (fun j => j * QUESTIONS_PER_BATCH)

/-- `batches = [questions[i:i+QUESTIONS_PER_BATCH] for i in
range(0, len(questions), QUESTIONS_PER_BATCH)]`. -/
def batches (l : List BatchQuestion) : List (List BatchQuestion) :=
  (batchStarts l.length).map (fun i => (l.drop i).take QUESTIONS_PER_BATCH)

def taskOfQuestion (q : BatchQuestion) : LSTask :=
  ⟨q.question_text, q.question_id⟩

/-- The top level of `make_batches.py` after the CSV is parsed: reject
inputs smaller than one batch with `SystemExit`; otherwise shuffle
(`shuffled` is the nondeterministic in-place permutation of `questions`),
chunk, and write each chunk as a list of task objects (one output file per
chunk, modelled as the list of file contents). -/
def make_batches (questions shuffled : List BatchQuestion) :
    Except String (List (List LSTask)) :=
  if questions.length < QUESTIONS_PER_BATCH then
    .error "Not enough questions to form one batch."
  else .ok ((batches shuffled).map (fun b => b.map taskOfQuestion))

/-! ### Concrete sample data used by witness theorems -/

def demoQuestion : Question :=
  ⟨"1", "Person A is strong", "Male", "['Female']"⟩

def demoQuestionB : Question :=
  ⟨"2", "Person A prays daily", "Hindu", "['Muslim']"⟩

/-- A session whose cursor has reached the end of a one-question list. -/
def demoDoneState : SessionState :=
  { initSessionState [demoQuestion] with current_idx := 1 }

/-- A batch-partition input with fewer questions than one batch. -/
def smallBatchInput : List BatchQuestion :=
  [⟨some "1", "s1"⟩, ⟨some "2", "s2"⟩, ⟨some "3", "s3"⟩,
   ⟨some "4", "s4"⟩, ⟨some "5", "s5"⟩]

/-- A batch-partition input of 45 distinct questions. -/
def batch45Input : List BatchQuestion :=
  (List.range 45).map (fun i => ⟨some (toString i), "stmt"⟩)

/-! ### Helper lemmas -/

/-- The cursor bound maintained by the session flow. -/
def cursorInvariant (s : SessionState) : Prop :=
  s.current_idx ≤ s.questions.length

theorem lookup_setResponse (m : List (String × String)) (k v : String) :
    (setResponse m k v).lookup k = some v := by
  induction m with
  | nil => simp [setResponse, List.lookup]
  | cons p rest ih =>
    obtain ⟨k', v'⟩ := p
    by_cases h : k' = k
    · subst h; simp [setResponse, List.lookup]
    · have hbeq : (k == k') = false := beq_false_of_ne (Ne.symm h)
      simp [setResponse, h, List.lookup, hbeq, ih]

theorem sessionStep_cursor (op : SessionOp) (s : SessionState)
    (h : cursorInvariant s) : cursorInvariant (sessionStep op s) := by
  cases op with
  | submit v =>
    simp only [sessionStep, handle_answer_submission, cursorInvariant] at *
    split
    · rename_i hlt; simpa using hlt
    · exact h
  | startAssessment => exact h
  | reset qs => simp [sessionStep, start_new_session, cursorInvariant]

theorem runSession_cursor (ops : List SessionOp) (s : SessionState)
    (h : cursorInvariant s) : cursorInvariant (runSession ops s) := by
  induction ops generalizing s with
  | nil => exact h
  | cons op rest ih =>
    exact ih (sessionStep op s) (sessionStep_cursor op s h)

theorem splitCommaChars_ne_nil (l : List Char) : splitCommaChars l ≠ [] := by
  induction l with
  | nil => simp [splitCommaChars]
  | cons c cs ih =>
    simp only [splitCommaChars]
    by_cases hc : (c == ',') = true
    · simp [hc]
    · rw [if_neg hc]
      cases hrest : splitCommaChars cs with
      | nil => simp
      | cons p ps => simp

theorem splitCommaChars_length (l : List Char) :
    (splitCommaChars l).length = l.count ',' + 1 := by
  induction l with
  | nil => simp [splitCommaChars]
  | cons c cs ih =>
    simp only [splitCommaChars]
    by_cases hc : (c == ',') = true
    · have hceq : c = ',' := eq_of_beq hc
      subst hceq
      simp [ih, List.count_cons]
    · have hcne : c ≠ ',' := fun h => hc (by simp [h])
      rw [if_neg hc]
      cases hrest : splitCommaChars cs with
      | nil => exact absurd hrest (splitCommaChars_ne_nil cs)
      | cons p ps =>
        rw [hrest] at ih
        simp only [List.length_cons] at ih ⊢
        rw [List.count_cons]
        simp [hcne, Ne.symm hcne, ih]

theorem mem_splitCommaChars (l : List Char) (p : List Char)
    (hp : p ∈ splitCommaChars l) : ',' ∉ p := by
  induction l generalizing p with
  | nil =>
    simp only [splitCommaChars, List.mem_singleton] at hp
    subst hp; simp
  | cons c cs ih =>
    simp only [splitCommaChars] at hp
    by_cases hc : (c == ',') = true
    · rw [if_pos hc] at hp
      rcases List.mem_cons.mp hp with h | h
      · subst h; simp
      · exact ih p h
    · have hcne : c ≠ ',' := fun h => hc (by simp [h])
      rw [if_neg hc] at hp
      cases hrest : splitCommaChars cs with
      | nil => exact absurd hrest (splitCommaChars_ne_nil cs)
      | cons q qs =>
        rw [hrest] at hp
        rcases List.mem_cons.mp hp with h | h
        · subst h
          intro hmem
          rcases List.mem_cons.mp hmem with h' | h'
          · exact hcne h'.symm
          · exact ih q (by rw [hrest]; exact List.mem_cons_self q qs) h'
        · exact ih p (by rw [hrest]; exact List.mem_cons_of_mem q h)

theorem head?_dropWhile_false {α : Type} {p : α → Bool} {l : List α} {c : α}
    (h : (l.dropWhile p).head? = some c) : p c = false := by
  induction l with
  | nil => simp [List.dropWhile] at h
  | cons a l ih =>
    rw [List.dropWhile_cons] at h
    by_cases ha : p a = true
    · rw [if_pos ha] at h; exact ih h
    · rw [if_neg ha] at h
      simp only [List.head?_cons, Option.some.injEq] at h
      subst h
      simpa using ha

theorem getLast?_dropWhile {α : Type} {p : α → Bool} (l : List α)
    (h : l.dropWhile p ≠ []) : (l.dropWhile p).getLast? = l.getLast? := by
  induction l with
  | nil => simp at h
  | cons a l ih =>
    rw [List.dropWhile_cons] at h ⊢
    by_cases ha : p a = true
    · rw [if_pos ha] at h ⊢
      have hl : l ≠ [] := by
        intro he; subst he; simp [List.dropWhile] at h
      obtain ⟨b, l', rfl⟩ := List.exists_cons_of_ne_nil hl
      rw [ih h, List.getLast?_cons_cons]
    · rw [if_neg ha]

theorem stripChars_head? {p : Char → Bool} {l : List Char} {c : Char}
    (h : (stripChars p l).head? = some c) : p c = false := by
  unfold stripChars at h
  rw [List.head?_reverse] at h
  have hne : (l.dropWhile p).reverse.dropWhile p ≠ [] := by
    intro he; rw [he] at h; simp at h
  rw [getLast?_dropWhile _ hne, List.getLast?_reverse] at h
  exact head?_dropWhile_false h

theorem stripChars_getLast? {p : Char → Bool} {l : List Char} {c : Char}
    (h : (stripChars p l).getLast? = some c) : p c = false := by
  unfold stripChars at h
  rw [List.getLast?_reverse] at h
  exact head?_dropWhile_false h

theorem stripChars_subset {p : Char → Bool} (l : List Char) :
    ∀ c ∈ stripChars p l, c ∈ l := by
  intro c hc
  unfold stripChars at hc
  rw [List.mem_reverse] at hc
  have h1 := (List.dropWhile_sublist p).subset hc
  rw [List.mem_reverse] at h1
  exact (List.dropWhile_sublist p).subset h1

theorem count_dropWhile_of_false {α : Type} [BEq α] [LawfulBEq α]
    {p : α → Bool} {a : α} (hp : p a = false) (l : List α) :
    (l.dropWhile p).count a = l.count a := by
  conv_rhs => rw [← List.takeWhile_append_dropWhile (p := p) (l := l)]
  rw [List.count_append]
  have hz : (l.takeWhile p).count a = 0 := by
    rw [List.count_eq_zero]
    intro hmem
    have := List.mem_takeWhile_imp hmem
    rw [hp] at this
    exact absurd this (by simp)
  omega

theorem count_stripChars {p : Char → Bool} {a : Char} (hp : p a = false)
    (l : List Char) : (stripChars p l).count a = l.count a := by
  unfold stripChars
  rw [List.count_reverse, count_dropWhile_of_false hp, List.count_reverse,
    count_dropWhile_of_false hp]

theorem toList_pyStripChars (p : Char → Bool) (s : String) :
    (pyStripChars p s).toList = stripChars p s.toList := rfl

theorem count_comma_clean (s : String) :
    (pyStripChars braceBracketChar (pyStripChars pyIsSpace s)).toList.count ','
      = s.toList.count ',' := by
  rw [toList_pyStripChars, toList_pyStripChars,
    count_stripChars (by decide), count_stripChars (by decide)]

theorem randomSample_length (l : List Question) (n : Nat) (seed : List Nat)
    (h : n ≤ l.length) : (randomSample l n seed).length = n := by
  induction n generalizing l seed with
  | zero => rfl
  | succ n ih =>
    have hpos : 0 < l.length := by omega
    unfold randomSample
    rw [dif_pos hpos]
    simp only [List.length_cons]
    have hlen : (l.eraseIdx (seed.headD 0 % l.length)).length + 1 = l.length :=
      List.length_eraseIdx_add_one (Nat.mod_lt _ hpos)
    rw [ih _ seed.tail (by omega)]

theorem randomSample_subperm (l : List Question) (n : Nat) (seed : List Nat) :
    (randomSample l n seed).Subperm l := by
  induction n generalizing l seed with
  | zero => exact List.nil_subperm
  | succ n ih =>
    unfold randomSample
    by_cases hpos : 0 < l.length
    · rw [dif_pos hpos]
      have hi : seed.headD 0 % l.length < l.length := Nat.mod_lt _ hpos
      have hmem : l.get ⟨seed.headD 0 % l.length, hi⟩ ∈ l := List.get_mem _ _ _
      have hperm : List.Perm l (l.get ⟨seed.headD 0 % l.length, hi⟩
          :: l.eraseIdx (seed.headD 0 % l.length)) := by
        refine (List.perm_cons_erase hmem).trans (List.Perm.cons _ ?_)
        simpa using List.erase_getElem hi
      have h1 := ih (l.eraseIdx (seed.headD 0 % l.length)) seed.tail
      have h2 := (List.subperm_cons
        (l.get ⟨seed.headD 0 % l.length, hi⟩)).mpr h1
      exact h2.trans hperm.symm.subperm
    · rw [dif_neg hpos]
      exact List.nil_subperm

theorem nodup_of_subperm {l₁ l₂ : List Question} (h : l₁.Subperm l₂)
    (hd : l₂.Nodup) : l₁.Nodup := by
  obtain ⟨u, huperm, husub⟩ := h
  exact (husub.nodup hd).perm huperm

theorem batches_cons (l : List BatchQuestion) (h : l ≠ []) :
    batches l
      = l.take QUESTIONS_PER_BATCH :: batches (l.drop QUESTIONS_PER_BATCH) := by
  have hpos : 0 < l.length := List.length_pos.mpr h
  unfold batches batchStarts QUESTIONS_PER_BATCH
  rw [List.length_drop]
  have hc : (l.length + (20 - 1)) / 20 = ((l.length - 20 + (20 - 1)) / 20) + 1 := by
    omega
  rw [hc, List.range_succ_eq_map]
  simp only [List.map_cons, List.map_map, Nat.zero_mul, List.drop_zero]
  congr 1
  apply List.map_congr_left
  intro j _
  simp only [Function.comp]
  rw [List.drop_drop]
  congr 2
  omega

theorem batches_flatten_aux (fuel : Nat) (l : List BatchQuestion)
    (hf : l.length ≤ fuel) : (batches l).flatten = l := by
  induction fuel generalizing l with
  | zero =>
    have hnil : l = [] := List.length_eq_zero.mp (by omega)
    subst hnil; rfl
  | succ fuel ih =>
    by_cases h : l = []
    · subst h; rfl
    · have hpos : 0 < l.length := List.length_pos.mpr h
      have hd : (l.drop QUESTIONS_PER_BATCH).length ≤ fuel := by
        rw [List.length_drop]
        unfold QUESTIONS_PER_BATCH
        omega
      rw [batches_cons l h, List.flatten_cons, ih _ hd,
        List.take_append_drop]

theorem batches_flatten (l : List BatchQuestion) : (batches l).flatten = l :=
  batches_flatten_aux l.length l (le_refl _)

theorem batches_map_length (l : List BatchQuestion) :
    (batches l).map List.length
      = (batchStarts l.length).map
          (fun i => min QUESTIONS_PER_BATCH (l.length - i)) := by
  unfold batches
  rw [List.map_map]
  apply List.map_congr_left
  intro i _
  simp [Function.comp, List.length_take, List.length_drop]

theorem mem_batchStarts_lt (len i : Nat) (hi : i ∈ batchStarts len) :
    i < len := by
  unfold batchStarts QUESTIONS_PER_BATCH at hi
  rw [List.mem_map] at hi
  obtain ⟨j, hj, rfl⟩ := hi
  rw [List.mem_range] at hj
  omega

theorem mem_batches_length (l : List BatchQuestion) (b : List BatchQuestion)
    (hb : b ∈ batches l) : b.length ≤ QUESTIONS_PER_BATCH ∧ b ≠ [] := by
  unfold batches at hb
  rw [List.mem_map] at hb
  obtain ⟨i, hi, rfl⟩ := hb
  have hilt := mem_batchStarts_lt l.length i hi
  constructor
  · rw [List.length_take]
    exact min_le_left _ _
  · apply List.ne_nil_of_length_pos
    rw [List.length_take, List.length_drop]
    refine lt_min_iff.mpr ⟨?_, by omega⟩
    unfold QUESTIONS_PER_BATCH
    omega

theorem batches_dropLast_length (l : List BatchQuestion)
    (b : List BatchQuestion) (hb : b ∈ (batches l).dropLast) :
    b.length = QUESTIONS_PER_BATCH := by
  unfold batches batchStarts QUESTIONS_PER_BATCH at hb
  unfold QUESTIONS_PER_BATCH
  rw [List.map_map, ← List.map_dropLast, List.mem_map] at hb
  obtain ⟨j, hj, rfl⟩ := hb
  have hjlt : j + 1 < (l.length + (20 - 1)) / 20 := by
    rcases Nat.eq_zero_or_pos ((l.length + (20 - 1)) / 20) with h0 | hcpos
    · rw [h0] at hj; simp at hj
    · obtain ⟨c', hc'⟩ : ∃ c', (l.length + (20 - 1)) / 20 = c' + 1 :=
        ⟨(l.length + (20 - 1)) / 20 - 1, by omega⟩
      rw [hc', List.range_succ, List.dropLast_concat, List.mem_range] at hj
      omega
  simp only [Function.comp]
  rw [List.length_take, List.length_drop]
  apply min_eq_left
  omega

/-! ### Claim theorems -/

/-- C5: on every evaluation of the instructions gate, while elapsed time
since the gate timestamp is strictly less than the 20-second gate duration
(including elapsed = 19) the Start Assessment button is disabled, and for
elapsed ≥ 20 it is enabled. -/
theorem C5_gate_enablement (elapsed_time : ℚ) :
    (elapsed_time < 20 → start_button_disabled elapsed_time = true) ∧
    (20 ≤ elapsed_time → start_button_disabled elapsed_time = false) := by
  constructor
  · intro h
    have hfl : pyInt elapsed_time < 20 := by
      unfold pyInt
      split
      · rename_i hneg
        have h0 : (0 : Int) ≤ Int.floor (-elapsed_time) := by
          rw [Int.le_floor]; push_cast; linarith
        omega
      · have : Int.floor elapsed_time < (20 : Int) := by
          rw [Int.floor_lt]; push_cast; linarith
        omega
    have hr : time_remaining elapsed_time = 20 - pyInt elapsed_time := by
      unfold time_remaining TIMER_DURATION_SECONDS
      exact max_eq_right (by omega)
    simp only [start_button_disabled, timer_expired, hr, Bool.not_eq_true']
    simp only [beq_eq_false_iff_ne, ne_eq]
    omega
  · intro h
    have hfl : (20 : Int) ≤ pyInt elapsed_time := by
      unfold pyInt
      split
      · rename_i hneg; exfalso; linarith
      · rw [Int.le_floor]; push_cast; linarith
    have hr : time_remaining elapsed_time = 0 := by
      unfold time_remaining TIMER_DURATION_SECONDS
      exact max_eq_left (by omega)
    simp [start_button_disabled, timer_expired, hr]

theorem C5_gate_enablement_witness :
    start_button_disabled 19 = true ∧ start_button_disabled 20 = false :=
  ⟨(C5_gate_enablement 19).1 (by norm_num),
   (C5_gate_enablement 20).2 (by norm_num)⟩

/-- C4: submitting a chosen label while the cursor is strictly below the
length of the sampled sequence appends exactly one response record, whose
`response` equals the submitted value and whose `question_id` is that of
the question at the cursor, and advances the cursor by one (also updating
the local response map and leaving the question list unchanged);
submitting when the cursor equals the sequence length writes nothing and
leaves the whole state unchanged. -/
theorem C4_submission_effect (response_value : String) (s : SessionState) :
    (s.current_idx < s.questions.length →
      (handle_answer_submission response_value s).2 =
        [⟨s.user_name,
          (s.questions.getD s.current_idx default).question_id,
          response_value⟩] ∧
      (handle_answer_submission response_value s).1.current_idx
        = s.current_idx + 1 ∧
      (handle_answer_submission response_value s).1.responses.lookup
          (s.questions.getD s.current_idx default).question_id
        = some response_value ∧
      (handle_answer_submission response_value s).1.questions
        = s.questions) ∧
    (s.current_idx = s.questions.length →
      handle_answer_submission response_value s = (s, [])) := by
  constructor
  · intro hlt
    unfold handle_answer_submission
    rw [if_pos hlt]
    exact ⟨rfl, rfl, lookup_setResponse _ _ _, rfl⟩
  · intro heq
    unfold handle_answer_submission
    rw [if_neg (by omega)]

theorem C4_submission_effect_witness :
    (handle_answer_submission "Female" (initSessionState [demoQuestion])).1.current_idx = 1 ∧
    (handle_answer_submission "Female" (initSessionState [demoQuestion])).2 =
      [⟨"Annotator_Guest", "1", "Female"⟩] ∧
    handle_answer_submission "Female" demoDoneState = (demoDoneState, []) :=
  ⟨((C4_submission_effect "Female" (initSessionState [demoQuestion])).1
      (by decide)).2.1,
   by
    have h := ((C4_submission_effect "Female"
      (initSessionState [demoQuestion])).1 (by decide)).1
    simpa using h,
   (C4_submission_effect "Female" demoDoneState).2 (by decide)⟩

/-- C2 counterexample: in the SQLite variant (`response_collector.py`),
`save_response` has no exception handling, so a failing write raises out
of `handle_answer_submission` before the cursor increment and the local
map update run — the session does not advance, refuting the claim that
the in-memory state advances in every storage-backend variant. -/
theorem C2_counterexample :
    handle_answer_submission_sqlite (.error "database is locked") "Female"
      (initSessionState [demoQuestion]) = .error "database is locked" := rfl

/-- C2 (amended): in the MongoDB variant (`app.py`), `save_response`
catches write failures, so with the cursor in range the cursor advances
and the local response map is updated regardless of the write outcome,
and a failed write merely emits no record; in the SQLite variant the same
failing write instead propagates as an exception and the state does not
advance. -/
theorem C2_amended_persistence (writeOutcome : Except String Unit)
    (response_value : String) (s : SessionState)
    (h : s.current_idx < s.questions.length) :
    (handle_answer_submission_mongo writeOutcome response_value s).1.current_idx
      = s.current_idx + 1 ∧
    (handle_answer_submission_mongo writeOutcome response_value s).1.responses.lookup
        (s.questions.getD s.current_idx default).question_id
      = some response_value ∧
    (∀ e, writeOutcome = .error e →
      (handle_answer_submission_mongo writeOutcome response_value s).2 = [] ∧
      handle_answer_submission_sqlite writeOutcome response_value s
        = .error e) := by
  unfold handle_answer_submission_mongo handle_answer_submission_sqlite
  rw [if_pos h, if_pos h]
  refine ⟨rfl, lookup_setResponse _ _ _, ?_⟩
  intro e he
  subst he
  exact ⟨rfl, rfl⟩

theorem C2_amended_persistence_witness :
    (handle_answer_submission_mongo (.error "database is locked") "Female"
      (initSessionState [demoQuestion])).1.current_idx = 1 ∧
    (handle_answer_submission_mongo (.error "database is locked") "Female"
      (initSessionState [demoQuestion])).2 = [] :=
  ⟨(C2_amended_persistence (.error "database is locked") "Female"
      (initSessionState [demoQuestion]) (by decide)).1,
   ((C2_amended_persistence (.error "database is locked") "Female"
      (initSessionState [demoQuestion]) (by decide)).2.2 "database is locked"
      rfl).1⟩

/-- C8 counterexample: the completion (Done) screen of the `app.py`
variant renders no interactive control at all — the Start New Session
button was removed — so a controller-level reset is not offered in every
variant of the flow. -/
theorem C8_counterexample :
    app_done_screen_controls = [] ∧
    RenderedControl.startNewSessionControl ∉ app_done_screen_controls := by
  exact ⟨rfl, by decide⟩

/-- C8 (amended): in the SQLite variant the Done screen offers exactly one
control, the Start New Session reset, and invoking the reset from any
state rebuilds precisely the fresh initial Gating state (timer unstarted,
assessment not started, cursor 0, empty response map) around a newly
sampled question sequence; in the `app.py` variant the Done screen offers
no control, so Done is terminal there. -/
theorem C8_amended_reset (freshQs : List Question) (s : SessionState) :
    rc_done_screen_controls = [RenderedControl.startNewSessionControl] ∧
    app_done_screen_controls = [] ∧
    sessionStep (.reset freshQs) s = initSessionState freshQs ∧
    (start_new_session freshQs).current_idx = 0 ∧
    (start_new_session freshQs).assessment_started = false ∧
    (start_new_session freshQs).timer_start_time = none ∧
    (start_new_session freshQs).questions = freshQs ∧
    (start_new_session freshQs).responses = [] :=
  ⟨rfl, rfl, rfl, rfl, rfl, rfl, rfl, rfl⟩

/-- C1: for every rendered question whose parsed alternative list is
non-empty, the displayed option list (any permutation `random.shuffle` may
produce of the pre-shuffle list) has exactly 3 elements and is a
permutation of [true label, one element of the alternative list, neutral
sentinel]; in particular the true label is always among the displayed
options. -/
theorem C1_rendered_options (true_label : String)
    (other_options_list : List String) (choice : Nat) (out : List String)
    (hne : other_options_list ≠ [])
    (hperm : out.Perm (option_labels true_label other_options_list choice)) :
    out.length = 3 ∧ true_label ∈ out ∧
    ∃ a ∈ other_options_list, out.Perm [true_label, a, neutralSentinel] := by
  have hpos : 0 < other_options_list.length := List.length_pos.mpr hne
  have hfl : false_label other_options_list choice ∈ other_options_list := by
    unfold false_label
    rw [dif_pos hpos]
    exact List.get_mem _ _ _
  refine ⟨?_, ?_, ?_⟩
  · simpa [option_labels] using hperm.length_eq
  · exact hperm.mem_iff.mpr (by simp [option_labels])
  · exact ⟨false_label other_options_list choice, hfl, hperm⟩

theorem C1_rendered_options_witness :
    (option_labels "Male" ["Female"] 0).length = 3 ∧
    "Male" ∈ option_labels "Male" ["Female"] 0 ∧
    ∃ a ∈ ["Female"], (option_labels "Male" ["Female"] 0).Perm
      ["Male", a, neutralSentinel] :=
  C1_rendered_options "Male" ["Female"] 0
    (option_labels "Male" ["Female"] 0) (by decide) (List.Perm.refl _)

/-- C7 counterexample: a question whose stored alternatives encoding is
the empty string does not render with the fallback label: the `app.py`
pipeline normalizes `''` to `['']`, a non-empty list, so the distractor
drawn is the empty string, not "Other Category". -/
theorem C7_counterexample :
    appParsedAlternatives (.str "") = [""] ∧
    false_label (appParsedAlternatives (.str "")) 0 = "" ∧
    false_label (appParsedAlternatives (.str "")) 0 ≠ FALLBACK_LABEL := by
  exact ⟨by decide, by decide, by decide⟩

/-- C7 (amended): every question whose parsed alternative list is empty
(e.g. a non-string stored value, or a value whose `ast.literal_eval`
fails in `app.py`) is still rendered with exactly three options — the
true label, the fixed fallback "Other Category", and the neutral sentinel
— in some order; a stored encoding that is the empty string instead
normalizes to `['']` and yields an empty-string distractor. -/
theorem C7_empty_alternatives (true_label : String) (choice : Nat)
    (out : List String)
    (hperm : out.Perm (option_labels true_label [] choice)) :
    out.length = 3 ∧
    out.Perm [true_label, FALLBACK_LABEL, neutralSentinel] := by
  have hol : option_labels true_label [] choice
      = [true_label, FALLBACK_LABEL, neutralSentinel] := rfl
  rw [hol] at hperm
  exact ⟨by simpa using hperm.length_eq, hperm⟩

theorem C7_empty_alternatives_witness :
    (option_labels "Male" [] 0).length = 3 ∧
    (option_labels "Male" [] 0).Perm
      ["Male", FALLBACK_LABEL, neutralSentinel] :=
  C7_empty_alternatives "Male" 0 (option_labels "Male" [] 0)
    (List.Perm.refl _)

/-- C3 counterexample: the normalization is not as claimed — a native
list is not passed through as labels (`clean_mongo_options` returns `[]`
for any non-string value), duplicate labels are not removed, and an empty
stored string yields a list containing the empty string. -/
theorem C3_counterexample :
    clean_mongo_options (.strList ["Female", "LGBTQ"]) = [] ∧
    clean_mongo_options (.str "\x7ba, a\x7d") = ["a", "a"] ∧
    clean_mongo_options (.str "") = [""] := by
  exact ⟨rfl, by decide, by decide⟩

/-- C3 (amended): for a string value arriving from storage,
`clean_mongo_options` returns the ordered comma-split fields (one field
per comma plus one, preserving order, duplicates and possibly-empty
fields) with the outer brace/bracket delimiters stripped and whitespace
then quote characters stripped from the edges of each field, so no
returned field starts or ends with a quote character or contains a comma;
for any non-string value — including a native list — both adapter
variants return the empty list. -/
theorem C3_normalization (s : String) (l : List String) :
    (clean_mongo_options (.str s)).length = s.toList.count ',' + 1 ∧
    (∀ t ∈ clean_mongo_options (.str s),
      (∀ c, t.toList.head? = some c → quoteChar c = false) ∧
      (∀ c, t.toList.getLast? = some c → quoteChar c = false) ∧
      ',' ∉ t.toList) ∧
    clean_mongo_options (.strList l) = [] ∧
    clean_options (.strList l) = [] := by
  refine ⟨?_, ?_, rfl, rfl⟩
  · simp only [clean_mongo_options, pySplitComma, List.length_map]
    rw [splitCommaChars_length, count_comma_clean]
  · intro t ht
    simp only [clean_mongo_options, pySplitComma, List.map_map,
      List.mem_map, Function.comp] at ht
    obtain ⟨piece, hpiece, rfl⟩ := ht
    refine ⟨?_, ?_, ?_⟩
    · intro c hc
      rw [toList_pyStripChars] at hc
      exact stripChars_head? hc
    · intro c hc
      rw [toList_pyStripChars] at hc
      exact stripChars_getLast? hc
    · intro hmem
      rw [toList_pyStripChars] at hmem
      have h1 := stripChars_subset _ _ hmem
      rw [toList_pyStripChars] at h1
      have h2 := stripChars_subset _ _ h1
      exact mem_splitCommaChars _ piece hpiece h2

theorem C3_normalization_witness :
    (clean_mongo_options (.str "\x7bFemale, LGBTQ\x7d")).length = 2 ∧
    ',' ∉ "Female".toList ∧
    clean_mongo_options (.strList ["Female"]) = [] :=
  ⟨((C3_normalization "\x7bFemale, LGBTQ\x7d" ["Female"]).1).trans (by decide),
   ((C3_normalization "\x7bFemale, LGBTQ\x7d" ["Female"]).2.1
      "Female" (by decide)).2.2,
   (C3_normalization "\x7bFemale, LGBTQ\x7d" ["Female"]).2.2.1⟩

/-- C10: the session cursor always satisfies
`0 ≤ current_idx ≤ len(questions)`: it is 0 in the freshly initialized
state, stays within the bound under any sequence of session operations
(submissions, starting the assessment, resets), and a single submission
increments it by at most one. -/
theorem C10_cursor_bound (qs : List Question) (ops : List SessionOp) :
    (initSessionState qs).current_idx = 0 ∧
    cursorInvariant (runSession ops (initSessionState qs)) ∧
    (∀ response_value s,
      (sessionStep (.submit response_value) s).current_idx
        ≤ s.current_idx + 1) := by
  refine ⟨rfl, runSession_cursor ops _ (by simp [initSessionState, cursorInvariant]), ?_⟩
  intro v s
  simp only [sessionStep, handle_answer_submission]
  split <;> simp

/-- C6: for a store holding `k` questions and requested sample size `n`
(quantifying over every random draw): if `k = 0` the sample is empty with
no error; if `k < n` the sample is exactly all `k` questions; if `n ≤ k`
the sample has exactly `n` questions drawn without replacement from the
store (so it is a sub-permutation of the store, and distinct whenever the
store rows are distinct). -/
theorem C6_sampling (all_questions : List Question) (n : Nat)
    (seed : List Nat) :
    (all_questions = [] → get_random_questions all_questions n seed = []) ∧
    (all_questions.length < n →
      get_random_questions all_questions n seed = all_questions) ∧
    (n ≤ all_questions.length →
      (get_random_questions all_questions n seed).length = n ∧
      (get_random_questions all_questions n seed).Subperm all_questions ∧
      (all_questions.Nodup →
        (get_random_questions all_questions n seed).Nodup)) := by
  refine ⟨?_, ?_, ?_⟩
  · intro h; subst h; rfl
  · intro h
    unfold get_random_questions
    by_cases he : all_questions.isEmpty
    · rw [if_pos he]
      exact (List.isEmpty_iff.mp he).symm
    · rw [if_neg he, if_pos h]
  · intro h
    unfold get_random_questions
    by_cases he : all_questions.isEmpty
    · have hnil : all_questions = [] := List.isEmpty_iff.mp he
      subst hnil
      simp only [List.length_nil, Nat.le_zero] at h
      subst h
      exact ⟨rfl, List.nil_subperm, fun _ => List.nodup_nil⟩
    · rw [if_neg he, if_neg (by omega)]
      exact ⟨randomSample_length _ _ _ h, randomSample_subperm _ _ _,
        fun hd => nodup_of_subperm (randomSample_subperm _ _ _) hd⟩

theorem C6_sampling_witness :
    (get_random_questions [demoQuestion, demoQuestionB] 1 [0]).length = 1 ∧
    (get_random_questions [demoQuestion, demoQuestionB] 1 [0]).Subperm
      [demoQuestion, demoQuestionB] ∧
    get_random_questions [] 20 [] = [] ∧
    get_random_questions [demoQuestion] 20 [] = [demoQuestion] :=
  ⟨((C6_sampling [demoQuestion, demoQuestionB] 1 [0]).2.2 (by decide)).1,
   ((C6_sampling [demoQuestion, demoQuestionB] 1 [0]).2.2 (by decide)).2.1,
   (C6_sampling [] 20 []).1 rfl,
   (C6_sampling [demoQuestion] 20 []).2.1 (by decide)⟩

/-- C9 counterexample: for an input question list smaller than the target
batch size the script does not partition at all — it raises `SystemExit`
and writes no output files, so the multiset of output identifiers (empty)
does not equal the input identifiers, refuting the claim for every input
list. -/
theorem C9_counterexample :
    make_batches smallBatchInput smallBatchInput
      = .error "Not enough questions to form one batch." := rfl

/-- C9 (amended): for every input of at least the target size (20)
questions and every shuffle outcome, the script writes consecutive groups
of the shuffled permutation of the input: the concatenation of all output
files is exactly the shuffled input converted to task objects (so the
multiset of question identifiers across all output files equals the input
identifiers exactly once each), every group is non-empty with at most 20
tasks, every group except the last has exactly 20, and an input of 45
questions produces exactly the sizes [20, 20, 5]; an input smaller than
one batch is instead rejected with an error. -/
theorem C9_partition (questions shuffled : List BatchQuestion)
    (hlen : QUESTIONS_PER_BATCH ≤ questions.length)
    (hperm : shuffled.Perm questions) :
    ∃ out, make_batches questions shuffled = .ok out ∧
      out.flatten = shuffled.map taskOfQuestion ∧
      (out.flatten.map LSTask.meta_question_id).Perm
        (questions.map BatchQuestion.question_id) ∧
      (∀ b ∈ out, b.length ≤ QUESTIONS_PER_BATCH ∧ b ≠ []) ∧
      (∀ b ∈ out.dropLast, b.length = QUESTIONS_PER_BATCH) ∧
      (questions.length = 45 → out.map List.length = [20, 20, 5]) := by
  refine ⟨(batches shuffled).map (fun b => b.map taskOfQuestion),
    ?_, ?_, ?_, ?_, ?_, ?_⟩
  · unfold make_batches
    rw [if_neg (by omega)]
  · rw [← List.map_flatten, batches_flatten]
  · rw [← List.map_flatten, batches_flatten, List.map_map]
    exact hperm.map _
  · intro b hb
    rw [List.mem_map] at hb
    obtain ⟨bq, hbq, rfl⟩ := hb
    have hlen2 := mem_batches_length shuffled bq hbq
    exact ⟨by simpa using hlen2.1, by simpa using hlen2.2⟩
  · intro b hb
    rw [← List.map_dropLast, List.mem_map] at hb
    obtain ⟨bq, hbq, rfl⟩ := hb
    rw [List.length_map]
    exact batches_dropLast_length shuffled bq hbq
  · intro h45
    have hs : shuffled.length = 45 := hperm.length_eq.trans h45
    calc ((batches shuffled).map (fun b => b.map taskOfQuestion)).map
          List.length
        = (batches shuffled).map List.length := by
          rw [List.map_map]
          apply List.map_congr_left
          intro b _
          simp [Function.comp]
      _ = (batchStarts shuffled.length).map
            (fun i => min QUESTIONS_PER_BATCH (shuffled.length - i)) :=
          batches_map_length shuffled
      _ = [20, 20, 5] := by rw [hs]; decide

theorem C9_partition_witness :
    ∃ out, make_batches batch45Input batch45Input = .ok out ∧
      out.flatten = batch45Input.map taskOfQuestion ∧
      (out.flatten.map LSTask.meta_question_id).Perm
        (batch45Input.map BatchQuestion.question_id) ∧
      (∀ b ∈ out, b.length ≤ QUESTIONS_PER_BATCH ∧ b ≠ []) ∧
      (∀ b ∈ out.dropLast, b.length = QUESTIONS_PER_BATCH) ∧
      (batch45Input.length = 45 → out.map List.length = [20, 20, 5]) :=
  C9_partition batch45Input batch45Input (by decide) (List.Perm.refl _)

end MTP
